import Mathlib

/-!
Shallow embedding of `src/python/smqtk/iqr_index/libsvm_hik.py`
(class `LibSvmHikIqrIndex`), the IQR ranking index built on libSVM with a
histogram-intersection kernel.

Modelling conventions:
* Python floats are modelled as exact rationals (`ℚ`) for all arithmetic the
  source performs with closed-form operations; the final Platt-scaling
  sigmoid, which applies `exp`, is modelled over the reals (`ℝ`).
* A Python `dict` is modelled either as a lookup function (`Vec → Option ℕ`,
  for `_descr2index`, where only the final key-to-value mapping is
  observable) or as an association list with insert-or-overwrite semantics
  (for the returned score mapping).
* A raised Python exception is modelled as an `Except.error` value.
* The external libSVM trainer (`svm`/`svmutil`) is an opaque capability: it
  is a parameter of `rank`, producing a trained-model record.
-/

namespace SMQTK

/-- A descriptor element: an identity token plus its feature vector
(`smqtk.data_rep.DescriptorElement` is outside the source core; the spec's
data model gives it a stable identity and a fixed-length vector). -/
structure Descriptor where
  uuid : ℕ
  vec : List ℚ
deriving DecidableEq, Repr, Inhabited

/-- A feature vector. -/
abbrev Vec := List ℚ

/-- Modelled from the spec: `histogram_intersection` kernel from
`smqtk.utils.distance_functions`, which is not under `src/`. Per spec §4.1
the kernel value of two equal-length non-negative vectors is the sum over
dimensions of the element-wise minimum. -/
def histogram_intersection (x y : Vec) : ℚ :=
  ((x.zip y).map (fun p => min p.1 p.2)).sum

/-- Modelled from the spec: `histogram_intersection_distance2` from
`smqtk.utils.distance_functions`, which is not under `src/`. Per spec §4.1
the distance-flavoured variant is the complementary transform
`self_similarity x + self_similarity y - 2 * k x y` of the intersection
kernel. -/
def histogram_intersection_distance2 (x y : Vec) : ℚ :=
  x.sum + y.sum - 2 * histogram_intersection x y

/-- Modelled from the spec: `compute_distance_matrix` from
`smqtk.utils.distance_kernel`, which is not under `src/`. Per spec §4.2 it
builds the M×N matrix whose (i,j) entry is the kernel value of `setA[i]`
and `setB[j]`. -/
def compute_distance_matrix (f : Vec → Vec → ℚ) (setA setB : List Vec) :
    List (List ℚ) :=
  setA.map (fun a => setB.map (fun b => f a b))

/-- The mutable state of a `LibSvmHikIqrIndex` instance: the three fields
assigned in `__init__` that the methods under verification read or write
(`_dist_kernel` is only ever written by commented-out code and is omitted).
`_descr_matrix` starts as Python `None`, hence the `Option`. The
`_descr2index` dict is modelled by its lookup function. -/
structure IndexState where
  _descr_cache : List Descriptor
  _descr_matrix : Option (List Vec)
  _descr2index : Vec → Option ℕ

/-- `__init__`: empty cache, `None` matrix, empty reverse-lookup dict. -/
def initState : IndexState :=
  { _descr_cache := []
    _descr_matrix := none
    _descr2index := fun _ => none }

/-- `count`: length of the descriptor cache. -/
def count (s : IndexState) : ℕ :=
  s._descr_cache.length

/-- `SVM_TRAIN_PARAMS`: the fixed libSVM training options. The flag `-q`
carries the empty-string value in the source; values are modelled as
rationals with the flag mapped to `0` (its rendering is presentation-only
and never read back). -/
def SVM_TRAIN_PARAMS : List (String × ℚ) :=
  [("-q", 0), ("-t", 5), ("-b", 1), ("-c", 2), ("-g", 0.0078125)]

/-- `_gen_w1_weight`: `max(1.0, num_neg / float(num_pos))`. When
`num_pos = 0` Python raises `ZeroDivisionError`, modelled as `none`. -/
def _gen_w1_weight (num_pos num_neg : ℕ) : Option ℚ :=
  if num_pos = 0 then none
  else some (max 1 ((num_neg : ℚ) / (num_pos : ℚ)))

/-- `_gen_svm_parameter_string`: copies `SVM_TRAIN_PARAMS` and adds the
per-call `-w1` entry. The final space-joined string rendering is
presentation-only; the key-value sequence handed to the trainer is
modelled directly. -/
def _gen_svm_parameter_string (num_pos num_neg : ℕ) :
    Option (List (String × ℚ)) :=
  (_gen_w1_weight num_pos num_neg).map
    (fun w1 => SVM_TRAIN_PARAMS ++ [("-w1", w1)])

/-- One dict assignment `m[k] = i` on the lookup-function model of
`_descr2index`. -/
def dictUpdate (m : Vec → Option ℕ) (k : Vec) (i : ℕ) : Vec → Option ℕ :=
  fun q => if q = k then some i else m q

/-- `build_index`: resets the three state fields and then, in one
enumerated pass over the input, appends each descriptor to the cache,
appends its vector as the next matrix row, and assigns
`_descr2index[tuple(v)] = i`. The prior state is discarded wholesale.
The body contains no emptiness check and raises nothing. -/
def build_index (_s : IndexState) (descriptors : List Descriptor) :
    IndexState :=
  { _descr_cache := descriptors
    _descr_matrix := some (descriptors.map (fun d => d.vec))
    _descr2index :=
      descriptors.enum.foldl (fun m p => dictUpdate m p.2.vec p.1)
        (fun _ => none) }

/-- The record a libSVM training call returns, as far as `rank` reads it:
`nr_class`, the per-class support-vector counts `nSV`, the support vectors
`SV`, the flattened coefficients of `get_sv_coef()`, and the scalars
`rho[0]`, `probA[0]`, `probB[0]` (spec §3: a Trained Model carries scalar
bias and calibration parameters). -/
structure SvmModel where
  nr_class : ℕ
  nSV : List ℕ
  SV : List Vec
  sv_coef : List ℚ
  rho : ℚ
  probA : ℚ
  probB : ℚ

/-- The external classifier-training capability
(`svmutil.svm_train` over an `svm.svm_problem`): from training labels,
training vectors and the parameter key-value sequence, produce a trained
model. Opaque per spec §4.4. -/
abbrev Trainer := List Int → List Vec → List (String × ℚ) → SvmModel

/-- The errors `rank` can raise:
`zeroDivision` is the `ZeroDivisionError` from `_gen_w1_weight` when
`pos` is empty; `emptyTrainSet` is the `IndexError` of
`train_vectors[0]` when both exemplar lists are empty (unreachable, since
the division error fires first); `noIndexMatrix` is the failure of
`compute_distance_matrix` when `self._descr_matrix` is still the initial
`None` (modelled from the spec, §4.2: the matrix builder requires two
vector sets, so a missing set is a failure — `smqtk.utils` is not under
`src/`). -/
inductive RankError where
  | zeroDivision
  | emptyTrainSet
  | noIndexMatrix
deriving DecidableEq, Repr

/-- One Python dict assignment `m[k] = v` on an association-list model:
overwrite in place when the key is present, else append. -/
def pyDictInsert {α β : Type} [DecidableEq α] (m : List (α × β)) (k : α)
    (v : β) : List (α × β) :=
  if k ∈ m.map Prod.fst then
    m.map (fun p => if p.1 = k then (p.1, v) else p)
  else m ++ [(k, v)]

/-- `dict(pairs)`: fold the pairs through insert-or-overwrite. -/
def pyDictOfPairs {α β : Type} [DecidableEq α] (l : List (α × β)) :
    List (α × β) :=
  l.foldl (fun m p => pyDictInsert m p.1 p.2) []

/-- `rank(pos, neg)`: assemble the labelled training set (+1 for `pos`,
-1 for `neg`, in order), invoke the trainer with the parameter sequence
(whose `-w1` computation divides by `len(pos)`), slice out the support
vectors (`SV[:num_SVs]`, each row truncated to `dim_SVs =
len(train_vectors[0])`), build the distance matrix from support vectors to
the index matrix, form margins as `numpy.dot(weights, svm_test_k)`
(entry j is the coefficient-weighted sum of column j), Platt-scale them,
and return `dict(zip(self._descr_cache, probs))` together with the
(unmodified) instance state.

`numpy.dot` is modelled with `zip`/`getD 0` padding; the source would
raise on a trainer whose coefficient count disagrees with its
support-vector count, a malformed model outside the trainer contract. -/
noncomputable def rank (trainer : Trainer) (s : IndexState)
    (pos neg : List Descriptor) :
    Except RankError (List (Descriptor × ℝ) × IndexState) :=
  let train_labels :=
    pos.map (fun _ => (1 : Int)) ++ neg.map (fun _ => (-1 : Int))
  let train_vectors := (pos ++ neg).map (fun d => d.vec)
  match _gen_svm_parameter_string pos.length neg.length with
  | none => Except.error RankError.zeroDivision
  | some params =>
    let svm_model := trainer train_labels train_vectors params
    let num_SVs := (svm_model.nSV.take svm_model.nr_class).sum
    match train_vectors with
    | [] => Except.error RankError.emptyTrainSet
    | v0 :: _ =>
      let dim_SVs := v0.length
      let svm_SVs := (svm_model.SV.take num_SVs).map
        (fun row => row.take dim_SVs)
      match s._descr_matrix with
      | none => Except.error RankError.noIndexMatrix
      | some m =>
        let svm_test_k := compute_distance_matrix
          histogram_intersection_distance2 svm_SVs m
        let weights := svm_model.sv_coef
        let margins := (List.range m.length).map
          (fun j =>
            ((weights.zip svm_test_k).map
              (fun p => p.1 * p.2.getD j 0)).sum)
        let probs : List ℝ := margins.map
          (fun mg => 1 / (1 + Real.exp
            (((mg - svm_model.rho) * svm_model.probA + svm_model.probB :
              ℚ) : ℝ)))
        Except.ok (pyDictOfPairs (s._descr_cache.zip probs), s)

/-- The probability list `rank` computes on an index freshly built over
`ds` for exemplars `p :: pos'` and `neg`: a literal transcription of the
post-training part of `rank`'s body, used to state its result (proved
equal to `rank`'s output in `rank_built_cons` below). -/
noncomputable def builtProbs (t : Trainer) (ds : List Descriptor)
    (p : Descriptor) (pos' neg : List Descriptor) : List ℝ :=
  let pos := p :: pos'
  let train_labels :=
    pos.map (fun _ => (1 : Int)) ++ neg.map (fun _ => (-1 : Int))
  let train_vectors := (pos ++ neg).map (fun d => d.vec)
  let params := SVM_TRAIN_PARAMS ++
    [("-w1", max 1 ((neg.length : ℚ) / ((pos.length : ℕ) : ℚ)))]
  let svm_model := t train_labels train_vectors params
  let num_SVs := (svm_model.nSV.take svm_model.nr_class).sum
  let dim_SVs := p.vec.length
  let svm_SVs := (svm_model.SV.take num_SVs).map
    (fun row => row.take dim_SVs)
  let m := ds.map (fun d => d.vec)
  let svm_test_k := compute_distance_matrix
    histogram_intersection_distance2 svm_SVs m
  let weights := svm_model.sv_coef
  let margins := (List.range m.length).map
    (fun j =>
      ((weights.zip svm_test_k).map
        (fun q => q.1 * q.2.getD j 0)).sum)
  margins.map
    (fun mg => 1 / (1 + Real.exp
      (((mg - svm_model.rho) * svm_model.probA + svm_model.probB :
        ℚ) : ℝ)))

/-- Sample descriptor for concrete instantiations. -/
def sampleA : Descriptor := ⟨10, [1, 0]⟩

/-- Sample descriptor for concrete instantiations. -/
def sampleB : Descriptor := ⟨11, [0, 1]⟩

/-- Sample exemplar descriptor for concrete instantiations. -/
def sampleQ : Descriptor := ⟨12, [1, 1]⟩

/-- A sample two-element index input. -/
def sampleDs : List Descriptor := [sampleA, sampleB]

/-- A sample trained model a trainer could return. -/
def sampleModel : SvmModel :=
  { nr_class := 2, nSV := [1, 1], SV := [[1, 0], [0, 1]],
    sv_coef := [1, -1], rho := 0, probA := -1, probB := 0 }

/-- A sample (constant) trainer capability. -/
def sampleTrainer : Trainer := fun _ _ _ => sampleModel

/-- A sample index input whose first two descriptors share a vector. -/
def dupDs : List Descriptor := [⟨0, [1, 0]⟩, ⟨1, [1, 0]⟩, ⟨2, [0, 1]⟩]

/-- The logistic value `1 / (1 + exp z)` is strictly between 0 and 1. -/
lemma sigmoid_bounds (z : ℝ) :
    0 < 1 / (1 + Real.exp z) ∧ 1 / (1 + Real.exp z) < 1 := by
  have h := Real.exp_pos z
  constructor
  · positivity
  · rw [div_lt_one (by linarith)]
    linarith

/-- Inserting an absent key appends it. -/
lemma pyDictInsert_not_mem {α β : Type} [DecidableEq α] (m : List (α × β))
    (k : α) (v : β) (h : k ∉ m.map Prod.fst) :
    pyDictInsert m k v = m ++ [(k, v)] := by
  simp [pyDictInsert, h]

/-- Folding key-distinct pairs through dict insertion just appends them. -/
lemma pyDict_foldl_nodup {α β : Type} [DecidableEq α] :
    ∀ (l acc : List (α × β)), (((acc ++ l).map Prod.fst).Nodup) →
      l.foldl (fun m p => pyDictInsert m p.1 p.2) acc = acc ++ l := by
  intro l
  induction l with
  | nil => intro acc _; simp
  | cons p t ih =>
    intro acc h
    have hk : p.1 ∉ acc.map Prod.fst := by
      intro hmem
      rw [List.map_append] at h
      rcases List.nodup_append.mp h with ⟨_, _, hdisj⟩
      exact hdisj hmem (by simp)
    rw [List.foldl_cons, pyDictInsert_not_mem _ _ _ hk]
    have harr : (acc ++ [p]) ++ t = acc ++ p :: t := by simp
    rw [ih (acc ++ [p]) (by rw [harr]; exact h), harr]

/-- On a key-distinct pair list, `dict(pairs)` is the pair list itself. -/
lemma pyDictOfPairs_nodup {α β : Type} [DecidableEq α] (l : List (α × β))
    (h : (l.map Prod.fst).Nodup) : pyDictOfPairs l = l := by
  have := pyDict_foldl_nodup l [] (by simpa)
  simpa [pyDictOfPairs] using this

/-- Row `i` of the vector matrix is the `i`-th descriptor's vector. -/
lemma getD_map_vec (ds : List Descriptor) (i : ℕ) (h : i < ds.length) :
    (ds.map (fun d => d.vec)).getD i [] = (ds.getD i default).vec := by
  rw [List.getD_eq_getElem _ _ (by simpa using h), List.getD_eq_getElem _ _ h]
  simp

/-- The enumerated dict-assignment fold leaves a key untouched when no
element carries its vector. -/
lemma d2i_foldl_no_match :
    ∀ (ds : List Descriptor) (n : ℕ) (m0 : Vec → Option ℕ) (v : Vec),
      (∀ d ∈ ds, d.vec ≠ v) →
      ((ds.enumFrom n).foldl (fun m p => dictUpdate m p.2.vec p.1) m0) v
        = m0 v := by
  intro ds
  induction ds with
  | nil => intro n m0 v _; rfl
  | cons d t ih =>
    intro n m0 v h
    have hstep : (List.enumFrom n (d :: t)) =
        (n, d) :: List.enumFrom (n + 1) t := rfl
    rw [hstep, List.foldl_cons,
      ih (n + 1) _ v (fun d' hd' => h d' (by simp [hd']))]
    have hne : v ≠ d.vec := fun hv => (h d (by simp)) hv.symm
    simp [dictUpdate, hne]

/-- The enumerated dict-assignment fold maps a vector to the offset
position of its last occurrence. -/
lemma d2i_foldl_last :
    ∀ (ds : List Descriptor) (j : ℕ) (n : ℕ) (m0 : Vec → Option ℕ)
      (v : Vec),
      j < ds.length →
      (ds.getD j default).vec = v →
      (∀ k, k < ds.length → j < k → (ds.getD k default).vec ≠ v) →
      ((ds.enumFrom n).foldl (fun m p => dictUpdate m p.2.vec p.1) m0) v
        = some (n + j) := by
  intro ds
  induction ds with
  | nil => intro j n m0 v hj; exact absurd hj (by simp)
  | cons d t ih =>
    intro j n m0 v hj hvj hlast
    have hcons : (List.enumFrom n (d :: t)) =
        (n, d) :: List.enumFrom (n + 1) t := rfl
    rw [hcons, List.foldl_cons]
    cases j with
    | zero =>
      have hd : d.vec = v := by simpa using hvj
      have hnone : ∀ d' ∈ t, d'.vec ≠ v := by
        intro d' hd'
        obtain ⟨k, hk, rfl⟩ := List.mem_iff_getElem.mp hd'
        have := hlast (k + 1) (by simpa using Nat.succ_lt_succ hk)
          (Nat.succ_pos k)
        rw [List.getD_cons_succ, List.getD_eq_getElem _ _ hk] at this
        exact this
      rw [d2i_foldl_no_match t (n + 1) _ v hnone]
      simp [dictUpdate, hd]
    | succ j' =>
      have hj' : j' < t.length := by simpa using hj
      have hvj' : (t.getD j' default).vec = v := by simpa using hvj
      have hlast' : ∀ k, k < t.length → j' < k →
          (t.getD k default).vec ≠ v := by
        intro k hk hjk
        have := hlast (k + 1) (by simpa using Nat.succ_lt_succ hk)
          (Nat.succ_lt_succ hjk)
        rwa [List.getD_cons_succ] at this
      rw [ih j' (n + 1) _ v hj' hvj' hlast']
      congr 1
      omega

/-- On an index built over `ds`, a call with non-empty positive exemplars
reaches the result line and returns the dict of the cache zipped with the
computed probabilities, leaving the state as built. -/
lemma rank_built_cons (t : Trainer) (s₀ : IndexState) (ds : List Descriptor)
    (p : Descriptor) (pos' neg : List Descriptor) :
    rank t (build_index s₀ ds) (p :: pos') neg =
      Except.ok
        (pyDictOfPairs (ds.zip (builtProbs t ds p pos' neg)),
         build_index s₀ ds) := rfl

/-- One probability per index row. -/
lemma builtProbs_length (t : Trainer) (ds : List Descriptor)
    (p : Descriptor) (pos' neg : List Descriptor) :
    (builtProbs t ds p pos' neg).length = ds.length := by
  simp [builtProbs]

/-- Every computed probability is strictly between 0 and 1. -/
lemma builtProbs_mem_bounds (t : Trainer) (ds : List Descriptor)
    (p : Descriptor) (pos' neg : List Descriptor) (x : ℝ)
    (hx : x ∈ builtProbs t ds p pos' neg) : 0 < x ∧ x < 1 := by
  simp only [builtProbs, List.mem_map] at hx
  obtain ⟨mg, _, rfl⟩ := hx
  exact sigmoid_bounds _

/-- The zip-based weighted column sum is the textbook vector-matrix dot
product (column `j` of `K` against `w`, out-of-range entries null). -/
lemma zip_mul_sum (w : List ℚ) (K : List (List ℚ)) (j : ℕ) :
    ((w.zip K).map (fun q => q.1 * q.2.getD j 0)).sum =
      ∑ i ∈ Finset.range w.length,
        w.getD i 0 * ((K.getD i []).getD j 0) := by
  induction w generalizing K with
  | nil => simp
  | cons a w' ih =>
    cases K with
    | nil => simp
    | cons b K' =>
      simp only [List.zip_cons_cons, List.map_cons, List.sum_cons,
        List.length_cons, Finset.sum_range_succ', List.getD_cons_succ,
        List.getD_cons_zero, ih]
      ring

/-- C1: on an index built by `build_index` over identity-distinct
descriptors, every `rank` call with non-empty positive exemplars returns a
mapping with exactly one entry per snapshot member, keyed by the members
themselves in order (so its identity key set equals the snapshot's and its
size equals `count()`), with every value strictly inside (0,1) (values are
reals, hence finite), and with no entry for exemplars outside the
snapshot. -/
theorem rank_result_wellformed (t : Trainer) (s₀ : IndexState)
    (ds : List Descriptor) (p : Descriptor) (pos' neg : List Descriptor)
    (hnd : (ds.map Descriptor.uuid).Nodup) :
    ∃ r : List (Descriptor × ℝ),
      rank t (build_index s₀ ds) (p :: pos') neg =
        Except.ok (r, build_index s₀ ds) ∧
      r.map Prod.fst = ds ∧
      r.map (fun q => q.1.uuid) = ds.map Descriptor.uuid ∧
      r.length = count (build_index s₀ ds) ∧
      (∀ q ∈ r, 0 < q.2 ∧ q.2 < 1) ∧
      (∀ d : Descriptor, d ∈ (p :: pos') ++ neg → d ∉ ds →
        d ∉ r.map Prod.fst) := by
  have hlen : ds.length ≤ (builtProbs t ds p pos' neg).length := by
    rw [builtProbs_length]
  have hfst : (ds.zip (builtProbs t ds p pos' neg)).map Prod.fst = ds :=
    List.map_fst_zip _ _ hlen
  have hnodup : ((ds.zip (builtProbs t ds p pos' neg)).map
      Prod.fst).Nodup := by
    rw [hfst]; exact hnd.of_map Descriptor.uuid
  have hr : pyDictOfPairs (ds.zip (builtProbs t ds p pos' neg)) =
      ds.zip (builtProbs t ds p pos' neg) :=
    pyDictOfPairs_nodup _ hnodup
  refine ⟨_, rank_built_cons t s₀ ds p pos' neg, ?_, ?_, ?_, ?_, ?_⟩
  · rw [hr, hfst]
  · rw [hr]
    calc (ds.zip (builtProbs t ds p pos' neg)).map (fun q => q.1.uuid)
        = ((ds.zip (builtProbs t ds p pos' neg)).map Prod.fst).map
            Descriptor.uuid := by rw [List.map_map]; rfl
      _ = ds.map Descriptor.uuid := by rw [hfst]
  · rw [hr]
    simp [count, build_index, List.length_zip, builtProbs_length]
  · intro q hq
    rw [hr] at hq
    exact builtProbs_mem_bounds t ds p pos' neg q.2
      (List.of_mem_zip hq).2
  · intro d _ hds
    rw [hr, hfst]
    exact hds

/-- Counterexample to C1 as universally stated: if `build_index` is given
the same descriptor twice, `dict(zip(cache, probs))` collapses the two
entries onto the one key, so the returned mapping's size (1) differs from
`count()` (2). -/
theorem rank_result_size_cex :
    ∃ (r : List (Descriptor × ℝ)) (st : IndexState),
      rank sampleTrainer (build_index initState [sampleA, sampleA])
          (sampleQ :: []) [] = Except.ok (r, st) ∧
      r.length ≠ count (build_index initState [sampleA, sampleA]) := by
  refine ⟨_, _,
    rank_built_cons sampleTrainer initState [sampleA, sampleA] sampleQ [] [],
    ?_⟩
  have h2 : (builtProbs sampleTrainer [sampleA, sampleA] sampleQ [] []).length
      = 2 := builtProbs_length _ _ _ _ _
  obtain ⟨x, y, hxy⟩ := List.length_eq_two.mp h2
  rw [hxy]
  simp [pyDictOfPairs, pyDictInsert, count, build_index, sampleA]

/-- Witness for C1 at a concrete trainer, index and exemplar. -/
theorem rank_result_wellformed_witness :
    ((sampleDs.map Descriptor.uuid).Nodup) ∧
    (∃ r : List (Descriptor × ℝ),
      rank sampleTrainer (build_index initState sampleDs)
          (sampleQ :: []) [] =
        Except.ok (r, build_index initState sampleDs) ∧
      r.map Prod.fst = sampleDs ∧
      r.map (fun q => q.1.uuid) = sampleDs.map Descriptor.uuid ∧
      r.length = count (build_index initState sampleDs) ∧
      (∀ q ∈ r, 0 < q.2 ∧ q.2 < 1) ∧
      (∀ d : Descriptor, d ∈ (sampleQ :: []) ++ [] → d ∉ sampleDs →
        d ∉ r.map Prod.fst)) :=
  ⟨by decide,
   rank_result_wellformed sampleTrainer initState sampleDs sampleQ [] []
     (by decide)⟩

/-- C2: contrary to the spec (and to the method's own docstring, which
promises a `ValueError` for "no data available"), `build_index` on an
empty sequence raises nothing: it returns normally and installs an empty
snapshot in place of any prior one, so `count()` becomes 0. -/
theorem build_index_empty_no_error (s : IndexState) :
    build_index s [] =
      { _descr_cache := [], _descr_matrix := some [],
        _descr2index := fun _ => none } ∧
    count (build_index s []) = 0 := ⟨rfl, rfl⟩

/-- C3: `rank` with an empty positive-exemplar sequence fails, for every
trainer and state, with the division-by-zero error of `_gen_w1_weight`
(the spec's InsufficientExemplarsError); the trainer argument is never
consulted, so the failure is surfaced before the trainer is invoked. -/
theorem rank_empty_pos_fails (t : Trainer) (s : IndexState)
    (neg : List Descriptor) :
    rank t s [] neg = Except.error RankError.zeroDivision := rfl

/-- C4: for positive `num_pos`, the `-w1` entry handed to the trainer is
`max 1 (num_neg / num_pos)`; it is exactly 1 whenever `num_neg ≤ num_pos`
and is monotone in the number of negatives. -/
theorem gen_w1_weight_spec (np nn : ℕ) (h : 0 < np) :
    _gen_svm_parameter_string np nn =
      some (SVM_TRAIN_PARAMS ++ [("-w1", max 1 ((nn : ℚ) / (np : ℚ)))]) ∧
    _gen_w1_weight np nn = some (max 1 ((nn : ℚ) / (np : ℚ))) ∧
    (nn ≤ np → _gen_w1_weight np nn = some 1) ∧
    (∀ nn' : ℕ, nn ≤ nn' →
      max 1 ((nn : ℚ) / (np : ℚ)) ≤ max 1 ((nn' : ℚ) / (np : ℚ))) := by
  have hne : np ≠ 0 := Nat.pos_iff_ne_zero.mp h
  have hpos : (0 : ℚ) < (np : ℚ) := by exact_mod_cast h
  refine ⟨?_, ?_, ?_, ?_⟩
  · simp [_gen_svm_parameter_string, _gen_w1_weight, hne]
  · simp [_gen_w1_weight, hne]
  · intro hle
    have hd1 : (nn : ℚ) / (np : ℚ) ≤ 1 := by
      rw [div_le_one hpos]; exact_mod_cast hle
    simp [_gen_w1_weight, hne, max_eq_left hd1]
  · intro nn' hle
    have hmono : (nn : ℚ) / (np : ℚ) ≤ (nn' : ℚ) / (np : ℚ) := by
      gcongr
    exact max_le_max le_rfl hmono

/-- Witness for C4 at `num_pos = 2`, `num_neg = 3`. -/
theorem gen_w1_weight_spec_witness :
    (0 : ℕ) < 2 ∧
    (_gen_svm_parameter_string 2 3 =
      some (SVM_TRAIN_PARAMS ++
        [("-w1", max 1 (((3 : ℕ) : ℚ) / ((2 : ℕ) : ℚ)))]) ∧
    _gen_w1_weight 2 3 = some (max 1 (((3 : ℕ) : ℚ) / ((2 : ℕ) : ℚ))) ∧
    ((3 : ℕ) ≤ 2 → _gen_w1_weight 2 3 = some 1) ∧
    (∀ nn' : ℕ, 3 ≤ nn' →
      max 1 (((3 : ℕ) : ℚ) / ((2 : ℕ) : ℚ)) ≤
        max 1 ((nn' : ℚ) / ((2 : ℕ) : ℚ)))) :=
  ⟨by decide, gen_w1_weight_spec 2 3 (by decide)⟩

/-- C5: on a built index, entry `j` of the returned mapping pairs the
`j`-th snapshot member with exactly
`1 / (1 + exp ((m_j − rho) * probA + probB))`, where the raw margin `m_j`
is the dot product of the model's support-vector coefficients with column
`j` of the kernel/distance matrix between the (truncated) support vectors
and the index matrix, and `rho`, `probA`, `probB` come from the trained
model; each such value is strictly between 0 and 1. -/
theorem rank_platt_scaling (model : SvmModel) (s₀ : IndexState)
    (ds : List Descriptor) (p : Descriptor) (pos' neg : List Descriptor)
    (hnd : (ds.map Descriptor.uuid).Nodup) :
    let SVs := (model.SV.take ((model.nSV.take model.nr_class).sum)).map
      (fun row => row.take p.vec.length)
    let K := compute_distance_matrix histogram_intersection_distance2 SVs
      (ds.map (fun d => d.vec))
    ∃ r : List (Descriptor × ℝ),
      rank (fun _ _ _ => model) (build_index s₀ ds) (p :: pos') neg =
        Except.ok (r, build_index s₀ ds) ∧
      r.length = ds.length ∧
      ∀ j, j < ds.length →
        r.getD j (default, 0) =
          (ds.getD j default,
           1 / (1 + Real.exp
             ((((∑ i ∈ Finset.range model.sv_coef.length,
                  model.sv_coef.getD i 0 * ((K.getD i []).getD j 0))
                - model.rho) * model.probA + model.probB : ℚ) : ℝ))) ∧
        0 < (r.getD j (default, (0 : ℝ))).2 ∧
        (r.getD j (default, (0 : ℝ))).2 < 1 := by
  intro SVs K
  have hlen : ds.length ≤
      (builtProbs (fun _ _ _ => model) ds p pos' neg).length := by
    rw [builtProbs_length]
  have hfst : (ds.zip (builtProbs (fun _ _ _ => model) ds p pos' neg)).map
      Prod.fst = ds := List.map_fst_zip _ _ hlen
  have hnodup : ((ds.zip (builtProbs (fun _ _ _ => model) ds p pos'
      neg)).map Prod.fst).Nodup := by
    rw [hfst]; exact hnd.of_map Descriptor.uuid
  have hr : pyDictOfPairs
        (ds.zip (builtProbs (fun _ _ _ => model) ds p pos' neg)) =
      ds.zip (builtProbs (fun _ _ _ => model) ds p pos' neg) :=
    pyDictOfPairs_nodup _ hnodup
  refine ⟨_, rank_built_cons _ s₀ ds p pos' neg, ?_, ?_⟩
  · rw [hr]
    simp [List.length_zip, builtProbs_length]
  · intro j hj
    have hzl : j < (ds.zip
        (builtProbs (fun _ _ _ => model) ds p pos' neg)).length := by
      simpa [List.length_zip, builtProbs_length] using hj
    have hjp : j < (builtProbs (fun _ _ _ => model) ds p pos'
        neg).length := by
      rw [builtProbs_length]; exact hj
    rw [hr, List.getD_eq_getElem _ _ hzl, List.getElem_zip]
    have hpj : (builtProbs (fun _ _ _ => model) ds p pos' neg)[j] =
        1 / (1 + Real.exp
          ((((∑ i ∈ Finset.range model.sv_coef.length,
              model.sv_coef.getD i 0 * ((K.getD i []).getD j 0))
            - model.rho) * model.probA + model.probB : ℚ) : ℝ)) := by
      simp only [builtProbs]
      rw [List.getElem_map, List.getElem_map, List.getElem_range,
        zip_mul_sum]
    refine ⟨?_, ?_, ?_⟩
    · rw [hpj, List.getD_eq_getElem _ _ hj]
    · have hb := builtProbs_mem_bounds (fun _ _ _ => model) ds p pos'
        neg _ (List.getElem_mem hjp)
      simpa using hb.1
    · have hb := builtProbs_mem_bounds (fun _ _ _ => model) ds p pos'
        neg _ (List.getElem_mem hjp)
      simpa using hb.2

/-- Witness for C5 at a concrete model, index and exemplar. -/
theorem rank_platt_scaling_witness :
    (sampleDs.map Descriptor.uuid).Nodup ∧
    (let SVs := (sampleModel.SV.take
        ((sampleModel.nSV.take sampleModel.nr_class).sum)).map
      (fun row => row.take sampleQ.vec.length)
    let K := compute_distance_matrix histogram_intersection_distance2 SVs
      (sampleDs.map (fun d => d.vec))
    ∃ r : List (Descriptor × ℝ),
      rank (fun _ _ _ => sampleModel) (build_index initState sampleDs)
          (sampleQ :: []) [] =
        Except.ok (r, build_index initState sampleDs) ∧
      r.length = sampleDs.length ∧
      ∀ j, j < sampleDs.length →
        r.getD j (default, 0) =
          (sampleDs.getD j default,
           1 / (1 + Real.exp
             ((((∑ i ∈ Finset.range sampleModel.sv_coef.length,
                  sampleModel.sv_coef.getD i 0 * ((K.getD i []).getD j 0))
                - sampleModel.rho) * sampleModel.probA +
                sampleModel.probB : ℚ) : ℝ))) ∧
        0 < (r.getD j (default, (0 : ℝ))).2 ∧
        (r.getD j (default, (0 : ℝ))).2 < 1) :=
  ⟨by decide,
   rank_platt_scaling sampleModel initState sampleDs sampleQ [] []
     (by decide)⟩

/-- C6: after `build_index` on a non-empty sequence, `count()` is the
input length, the cache is exactly the input in order, the matrix rows
follow input order (row `i` holds descriptor `i`'s vector), and the
resulting state is a function of the input alone — any prior snapshot is
fully replaced, never extended. -/
theorem build_index_rebuild (s s' : IndexState) (ds : List Descriptor)
    (_h : ds ≠ []) :
    count (build_index s ds) = ds.length ∧
    (build_index s ds)._descr_cache = ds ∧
    (build_index s ds)._descr_matrix = some (ds.map (fun d => d.vec)) ∧
    (∀ i, i < ds.length →
      (ds.map (fun d => d.vec)).getD i [] = (ds.getD i default).vec) ∧
    build_index s ds = build_index s' ds :=
  ⟨rfl, rfl, rfl, fun i hi => getD_map_vec ds i hi, rfl⟩

/-- Witness for C6 with a non-trivial prior snapshot being replaced. -/
theorem build_index_rebuild_witness :
    sampleDs ≠ [] ∧
    (count (build_index initState sampleDs) = sampleDs.length ∧
    (build_index initState sampleDs)._descr_cache = sampleDs ∧
    (build_index initState sampleDs)._descr_matrix =
      some (sampleDs.map (fun d => d.vec)) ∧
    (∀ i, i < sampleDs.length →
      (sampleDs.map (fun d => d.vec)).getD i [] =
        (sampleDs.getD i default).vec) ∧
    build_index initState sampleDs =
      build_index (build_index initState [sampleQ]) sampleDs) :=
  ⟨by decide,
   build_index_rebuild initState (build_index initState [sampleQ])
     sampleDs (by decide)⟩

/-- C7: when positions `i < j` carry bit-identical vectors and `j` is the
last occurrence of that vector, the reverse lookup built by `build_index`
maps the vector to the later position `j` (last-inserted wins), while the
ordered cache still retains every input descriptor. -/
theorem descr2index_last_wins (s : IndexState) (ds : List Descriptor)
    (v : Vec) (i j : ℕ) (_hij : i < j) (hj : j < ds.length)
    (_hvi : (ds.getD i default).vec = v)
    (hvj : (ds.getD j default).vec = v)
    (hlast : ∀ k, k < ds.length → j < k → (ds.getD k default).vec ≠ v) :
    (build_index s ds)._descr2index v = some j ∧
    (build_index s ds)._descr_cache = ds := by
  constructor
  · show (ds.enum.foldl (fun m p => dictUpdate m p.2.vec p.1)
      (fun _ => none)) v = some j
    have he : ds.enum = ds.enumFrom 0 := rfl
    rw [he, d2i_foldl_last ds j 0 _ v hj hvj hlast]
    simp
  · rfl

/-- Witness for C7 on two identical vectors at positions 0 and 1. -/
theorem descr2index_last_wins_witness :
    (0 : ℕ) < 1 ∧ 1 < dupDs.length ∧
    (dupDs.getD 0 default).vec = [1, 0] ∧
    (dupDs.getD 1 default).vec = [1, 0] ∧
    (∀ k, k < dupDs.length → 1 < k →
      (dupDs.getD k default).vec ≠ [1, 0]) ∧
    ((build_index initState dupDs)._descr2index [1, 0] = some 1 ∧
     (build_index initState dupDs)._descr_cache = dupDs) :=
  ⟨by decide, by decide, by decide, by decide, by decide,
   descr2index_last_wins initState dupDs [1, 0] 0 1 (by decide)
     (by decide) (by decide) (by decide) (by decide)⟩

/-- C8: `rank` never writes the snapshot: whatever it returns, the state
component is the very state it was called on (error outcomes carry no
state and leave the caller's state untouched by construction). -/
theorem rank_state_unchanged (t : Trainer) (s : IndexState)
    (pos neg : List Descriptor) :
    (rank t s pos neg).map Prod.snd = (rank t s pos neg).map (fun _ => s) := by
  unfold rank
  split
  · rfl
  · split
    · cases htv : List.map (fun d => d.vec) (pos ++ neg) <;> rfl
    · cases htv : List.map (fun d => d.vec) (pos ++ neg) <;> rfl

/-- C9: the score mapping `rank` returns is a deterministic function of
the snapshot data it reads (the descriptor cache and vector matrix), the
exemplar sequences and the trainer: two executions over states agreeing
on those fields return equal score mappings. -/
theorem rank_deterministic (t : Trainer) (s s' : IndexState)
    (pos neg : List Descriptor) (hc : s._descr_cache = s'._descr_cache)
    (hm : s._descr_matrix = s'._descr_matrix) :
    (rank t s pos neg).map Prod.fst = (rank t s' pos neg).map Prod.fst := by
  unfold rank
  simp only [hc, hm]
  split
  · rfl
  · split
    · cases hmx : s'._descr_matrix <;> rfl
    · cases hmx : s'._descr_matrix <;> rfl

/-- Witness for C9: two states with the same cache and matrix but
different reverse-lookup dicts yield the same scores. -/
theorem rank_deterministic_witness :
    (build_index initState sampleDs)._descr_cache =
      (IndexState.mk (build_index initState sampleDs)._descr_cache
        (build_index initState sampleDs)._descr_matrix
        (fun _ => none))._descr_cache ∧
    (build_index initState sampleDs)._descr_matrix =
      (IndexState.mk (build_index initState sampleDs)._descr_cache
        (build_index initState sampleDs)._descr_matrix
        (fun _ => none))._descr_matrix ∧
    (rank sampleTrainer (build_index initState sampleDs)
        [sampleQ] []).map Prod.fst =
      (rank sampleTrainer
        (IndexState.mk (build_index initState sampleDs)._descr_cache
          (build_index initState sampleDs)._descr_matrix
          (fun _ => none)) [sampleQ] []).map Prod.fst :=
  ⟨rfl, rfl,
   rank_deterministic sampleTrainer (build_index initState sampleDs)
     (IndexState.mk (build_index initState sampleDs)._descr_cache
       (build_index initState sampleDs)._descr_matrix
       (fun _ => none)) [sampleQ] [] rfl rfl⟩

/-- C10: on a freshly constructed instance (where `_descr_matrix` is the
initial `None` and the cache is empty), `rank` with any non-empty
positive list fails at the distance-matrix step instead of returning a
mapping, for every trainer: a successful `build_index` is a precondition
of `rank`. -/
theorem rank_unbuilt_fails (t : Trainer) (p : Descriptor)
    (pos' neg : List Descriptor) :
    rank t initState (p :: pos') neg =
      Except.error RankError.noIndexMatrix := rfl

end SMQTK
